import Mathlib

/-!
Verification of the sshpool connection/session pool (desops/sshpool).

The Go source is shallowly embedded: the per-transport session semaphore
(a buffered channel of capacity MaxSessions) becomes a pair of counters
`cap`/`used`; a non-blocking send (`try_acquire`) succeeds iff `used < cap`;
a receive (`release`) decrements `used`.  The pool state relevant to one
host is the ordered list of transports (`clients[host]` in pool.go).

Two layers are developed:
* a sequential model of `get_client` / `Get` / `GetSFTP` / `Put` / `Close`
  and the tunnel forward path, for single-threaded executions;
* a small-step interleaving model of `get_client` for the concurrency
  claims (dial gate, connection bound, session-id assignment), in which
  every lock-protected critical section of the Go code is one atomic
  transition and everything between critical sections is preemptible.
-/

/-- One `client` record of pool.go (lines 39-43): an established SSH
transport with its session-slot semaphore.  The Go `sessions` channel of
capacity `cap` holding `used` tokens is modelled by the two counters. -/
structure client where
  clientid : Nat
  cap : Nat
  used : Nat
deriving DecidableEq, Repr

/-- Non-blocking send on the `sessions` channel succeeds iff a slot is free. -/
def client.tryAcquire (c : client) : Bool := c.used < c.cap

/-- Update the element at index `i` of a list (a semaphore operation on one
transport of the registry). -/
def updAt : List client → Nat → (client → client) → List client
  | [], _, _ => []
  | c :: rest, 0, f => f c :: rest
  | c :: rest, n+1, f => c :: updAt rest n f

/-- A receive from `c.sessions` (slot release) on transport `i`. -/
def releaseSlot (cs : List client) (i : Nat) : List client :=
  updAt cs i (fun c => { c with used := c.used - 1 })

/-- Total number of reserved slots across the host's transports. -/
def totalUsed (cs : List client) : Nat := (cs.map client.used).sum

/-- Number of transports that currently have a free slot. -/
def countFree (cs : List client) : Nat :=
  (cs.filter (fun c => c.used < c.cap)).length

/-- The scan of the host's transports in `get_client` (pool.go lines
185-192), translated statement by statement.  The Go loop is

  for _, client := range p.clients[host] {
    select {
    case client.sessions <- struct{}{}:
      noblock = client
      break
    default:
    }
  }

In Go, `break` inside a `select` terminates the `select`, not the `for`
loop, so the loop keeps scanning: every transport whose non-blocking send
succeeds gets a token put into its channel, and `noblock` is overwritten
each time.  `scanAux i nb cs` returns the transports after the loop and
the index finally held by `noblock` (`i` is the index of the head of
`cs`, `nb` the value of `noblock` so far). -/
def scanAux : Nat → Option Nat → List client → List client × Option Nat
  | _, nb, [] => ([], nb)
  | i, nb, c :: rest =>
    if c.used < c.cap then
      let r := scanAux (i+1) (some i) rest
      ({ c with used := c.used + 1 } :: r.1, r.2)
    else
      let r := scanAux (i+1) nb rest
      (c :: r.1, r.2)

/-- The whole scan loop, started like the Go code with `noblock = nil`. -/
def scanClients (cs : List client) : List client × Option Nat := scanAux 0 none cs

/-- Modelled from the spec: the scan as §4.3 step 2 describes it ("Walk the
host's transports in order; for each, attempt try_acquire on its slot
semaphore. On the first success, record it and stop").  Used only to
exhibit the divergence between the specified scan and the compiled one. -/
def scanFirstFree : Nat → List client → List client × Option Nat
  | _, [] => ([], none)
  | i, c :: rest =>
    if c.used < c.cap then
      ({ c with used := c.used + 1 } :: rest, some i)
    else
      let r := scanFirstFree (i+1) rest
      (c :: r.1, r.2)

/-- The effect of one loop iteration of the scan on its transport: reserve
a slot when one is free, else leave it alone. -/
def freeBump (c : client) : client :=
  if c.used < c.cap then { c with used := c.used + 1 } else c

/-- Registry state for one host plus the pool counters touched by
`get_client` (`clients[host]`, `nextclientid`, `nextsessionid`). -/
structure HostState where
  cs : List client
  nextclientid : Nat
  nextsessionid : Nat
deriving DecidableEq, Repr

/-- Result of `get_client` for a single-threaded caller. -/
inductive GetClientOut where
  | got (st : HostState) (idx : Nat) (sid : Nat)
  | wouldBlock (st : HostState)
  | dialErr (st : HostState)
deriving DecidableEq, Repr

/-- `get_client` (pool.go 150-297) run by a single-threaded caller with no
concurrent calls: the `dialing` map is empty (no wait, dial race won) and
`maxc`/`maxs` are the effective MaxConnections/MaxSessions.  Under the
clients lock the session id is assigned and the scan runs; if `noblock`
was set that transport is returned; if the scan failed and the host is at
the connection cap the caller would block on the snapshot (`wouldBlock`:
no other thread exists to release a slot); otherwise the caller dials
(outcome `dialOk`), reserves the first slot on the new transport and
appends it to the registry. -/
def get_client_seq (maxc maxs : Nat) (dialOk : Bool) (st : HostState) : GetClientOut :=
  let sid := st.nextsessionid + 1
  let scanRes := scanClients st.cs
  let st1 : HostState := { st with cs := scanRes.1, nextsessionid := sid }
  match scanRes.2 with
  | some j => .got st1 j sid
  | none =>
    if st.cs.length = maxc ∧ 0 < st.cs.length then
      .wouldBlock st1
    else if dialOk then
      let c : client := { clientid := st1.nextclientid + 1, cap := maxs, used := 1 }
      .got { st1 with cs := st1.cs ++ [c], nextclientid := st1.nextclientid + 1 }
        st1.cs.length sid
    else
      .dialErr st1

/-- Result of `Get`/`GetSFTP`: a session handle (transport index and session
id) or an error; `blocked` marks the single-threaded caller stuck waiting. -/
inductive GetOut where
  | ok (st : HostState) (idx : Nat) (sid : Nat)
  | err (st : HostState)
  | blocked (st : HostState)
deriving DecidableEq, Repr

/-- `Get` (pool.go 119-147): call `get_client`; on success open a session
channel (`newSessionOk` is the outcome of `client.Client.NewSession()`); on
open failure receive one token back from `client.sessions` and return the
error with a nil session. -/
def Get_seq (maxc maxs : Nat) (dialOk newSessionOk : Bool) (st : HostState) : GetOut :=
  match get_client_seq maxc maxs dialOk st with
  | .got st' j sid =>
    if newSessionOk then .ok st' j sid
    else .err { st' with cs := releaseSlot st'.cs j }
  | .wouldBlock st' => .blocked st'
  | .dialErr st' => .err st'

/-- `GetSFTP` (pool.go 335-360): identical structure with
`sftp.NewClient(client.Client)` in place of `NewSession`. -/
def GetSFTP_seq (maxc maxs : Nat) (dialOk newClientOk : Bool) (st : HostState) : GetOut :=
  match get_client_seq maxc maxs dialOk st with
  | .got st' j sid =>
    if newClientOk then .ok st' j sid
    else .err { st' with cs := releaseSlot st'.cs j }
  | .wouldBlock st' => .blocked st'
  | .dialErr st' => .err st'

/-- The effect of `Session.Put`/`SFTPSession.Put` once the (always positive,
see the Put-delay claims) sleep has elapsed: one receive from the chosen
transport's `sessions` channel.  A receive from an empty channel blocks
forever, modelled as `none`. -/
def putRelease (st : HostState) (idx : Nat) : Option HostState :=
  match st.cs[idx]? with
  | some c => if 0 < c.used then some { st with cs := releaseSlot st.cs idx } else none
  | none => none

/-- One public pool operation of a sequential history: an acquisition (with
the dial outcome for the case a dial is needed) or the delayed release of
the handle that was returned with transport index `idx`. -/
inductive PoolOp where
  | opGet (dialOk : Bool)
  | opPut (idx : Nat)
deriving DecidableEq, Repr

/-- Run a sequential history of acquisitions and releases, collecting the
transport index returned by each successful `Get` (the session opens all
succeed, so every handle is real and every `opPut` can be matched against
the collected indices).  `none` marks a stuck or failed run. -/
def runOps (maxc maxs : Nat) : List PoolOp → HostState → List Nat → Option (HostState × List Nat)
  | [], st, acc => some (st, acc)
  | .opGet dialOk :: rest, st, acc =>
    match Get_seq maxc maxs dialOk true st with
    | .ok st' j _ => runOps maxc maxs rest st' (acc ++ [j])
    | _ => none
  | .opPut idx :: rest, st, acc =>
    match putRelease st idx with
    | some st' => runOps maxc maxs rest st' acc
    | none => none

/-- Events of `Pool.Close`, for stating what happens while `clients_mu` is
held. -/
inductive CloseEv where
  | lockClients
  | closeTransport (cid : Nat)
  | unlockClients
deriving DecidableEq, Repr

/-- The loop of `Pool.Close` (pool.go 303-311): for each host entry of the
clients map, close every transport of that host.  All of it runs between
the `Lock()` and the deferred `Unlock()`. -/
def closeLoopEvents : List (Nat × List client) → List CloseEv
  | [] => []
  | (_, cs) :: rest =>
    cs.map (fun c => CloseEv.closeTransport c.clientid) ++ closeLoopEvents rest

/-- The map after the loop: every visited host key is deleted
(`delete(p.clients, host)`). -/
def closeFold : List (Nat × List client) → List (Nat × List client) → List (Nat × List client)
  | [], m => m
  | (h, _) :: rest, m => closeFold rest (m.filter (fun p => p.1 ≠ h))

/-- `Pool.Close` (pool.go 299-312): `Lock()`, `defer Unlock()`, then the
close-and-delete loop.  Hosts are abstracted to `Nat` keys; the clients map
is an association list with pairwise different keys (a Go map).  Returns
the event trace and the final clients map; the deferred unlock is the last
event, after every transport close. -/
def poolClose (m : List (Nat × List client)) : List CloseEv × List (Nat × List client) :=
  (CloseEv.lockClients :: (closeLoopEvents m ++ [CloseEv.unlockClients]), closeFold m m)

/-- Index of the first event satisfying `p` in a close trace. -/
def idxOfEv (p : CloseEv → Bool) : List CloseEv → Option Nat
  | [] => none
  | e :: rest => if p e then some 0 else (idxOfEv p rest).map (· + 1)

def isCloseEv : CloseEv → Bool
  | .closeTransport _ => true
  | _ => false

def isUnlockEv : CloseEv → Bool
  | .unlockClients => true
  | _ => false

/-- Observable events of one run of `Tunnel.forward`. -/
inductive FwdEv where
  | acquiredTransport (cid : Nat)
  | releasedSlot (cid : Nat)
  | closedTransport (cid : Nat)
deriving DecidableEq, Repr

/-- `Tunnel.forward` (src/unnamed/part_002 lines 63-96) for one forwarded
connection that completes normally, against the `get_client` of pool.go
(which reserves a session slot on every success path; forward ignores the
returned session id).  The transport is acquired, the remote connection is
opened through it, bytes are copied, and the deferred `client.Close()`
closes the pooled transport.  No receive from `client.sessions` appears
anywhere in the function, so no `releasedSlot` event is ever emitted and
the registry keeps the reservation. -/
def forwardRun (maxc maxs : Nat) (dialOk : Bool) (st : HostState) :
    Option (HostState × List FwdEv × Nat) :=
  match get_client_seq maxc maxs dialOk st with
  | .got st' j _ =>
    match st'.cs[j]? with
    | some c =>
      some (st', [FwdEv.acquiredTransport c.clientid, FwdEv.closedTransport c.clientid], j)
    | none => none
  | _ => none

/-- The part of `ssh.ClientConfig` the dial path touches: the `User` field,
with every other field collapsed into `Rest` (the shallow struct copy
`newconfig := *config` copies them all unchanged). -/
structure ClientConfig where
  User : List Char
  Rest : Nat
deriving DecidableEq, Repr

/-- `strings.IndexByte(addr, b) > -1`, i.e. `b` occurs in `addr`. -/
def containsByte (b : Char) : List Char → Bool
  | [] => false
  | c :: rest => c = b || containsByte b rest

/-- `strings.IndexByte`: index of the first occurrence, `none` for -1. -/
def indexOfByte (b : Char) : List Char → Option Nat
  | [] => none
  | c :: rest => if c = b then some 0 else (indexOfByte b rest).map (· + 1)

/-- The address/config computation of the dial path of `get_client`
(pool.go 253-269): append ":22" when the host string holds no ':'; when a
'@' occurs, split at its first occurrence, dial the part after it, and use
a shallow copy of the config with `User` overridden (the original struct
is not written through the pointer). -/
def dialAddrConfig (host : List Char) (config : ClientConfig) : List Char × ClientConfig :=
  let addr := if containsByte ':' host then host else host ++ [':', '2', '2']
  match indexOfByte '@' addr with
  | none => (addr, config)
  | some i => (addr.drop (i + 1), { config with User := addr.take i })

/-- The pool fields the dial preparation can see; `get_client` reads
`p.config` and never assigns it. -/
structure PoolCfg where
  config : ClientConfig
deriving DecidableEq, Repr

/-- Dial preparation inside `get_client`: the dial address, the effective
config passed to `ssh.Dial`, and the pool state afterwards. -/
def get_client_dialPrep (p : PoolCfg) (host : List Char) :
    List Char × ClientConfig × PoolCfg :=
  ((dialAddrConfig host p.config).1, (dialAddrConfig host p.config).2, p)

/-- `DefaultSessionCloseDelay` (pool.go line 23), in milliseconds. -/
def DefaultSessionCloseDelayMs : Int := 20

/-- The sleep duration requested by the goroutine of `Session.Put`
(pool.go 91-98).  `SessionCloseDelay` is a Go `time.Duration` (a signed
integer), read from the pool configuration at release time. -/
def sessionPutSleep (sessionCloseDelay : Int) : Int :=
  if sessionCloseDelay = 0 then DefaultSessionCloseDelayMs else sessionCloseDelay

/-- The same choice in `SFTPSession.Put` (pool.go 362-375). -/
def sftpSessionPutSleep (sessionCloseDelay : Int) : Int :=
  if sessionCloseDelay = 0 then DefaultSessionCloseDelayMs else sessionCloseDelay

/-- `time.Sleep` returns immediately for a negative or zero duration (Go
standard library), so the realized quiet period is the requested duration
clamped below at zero. -/
def realizedQuiet (d : Int) : Int := max d 0

/-- The quiet period `Session.Put` actually produces for a configured
`SessionCloseDelay`. -/
def sessionPutQuiet (sessionCloseDelay : Int) : Int :=
  realizedQuiet (sessionPutSleep sessionCloseDelay)

/-- What the `Put` goroutine does, in order: sleep, then release the slot. -/
inductive PutEv where
  | sleepFor (d : Int)
  | releaseTok
deriving DecidableEq, Repr

def sessionPutEvents (sessionCloseDelay : Int) : List PutEv :=
  [PutEv.sleepFor (sessionPutSleep sessionCloseDelay), PutEv.releaseTok]

/-!  The small-step interleaving model of `get_client` for one host.
Each goroutine runs pool.go 150-297; its program counter marks the
boundaries between atomic sections (each `mu.Lock() ... mu.Unlock()`
critical section is one step, as is each blocking or network action). -/

/-- Program counters of one goroutine inside a public acquisition call. -/
inductive PC where
  | entry
  | checkGate
  | waitGate (gate : Nat)
  | scan
  | blockSel (snap : Nat)
  | installGate
  | dialing (gate : Nat)
  | appendC (gate : Nat)
  | removeGate (gate : Nat) (res : Option Nat)
  | done (res : Option Nat)
deriving DecidableEq, Repr

/-- One goroutine: its control point and the `sessionid` local variable
(0 = not yet assigned, as in the Go code where ids start at 1). -/
structure Gor where
  pc : PC
  sid : Nat
deriving DecidableEq, Repr

/-- The pool state for one host: the registry, the id counters, the
`dialing[host]` entry (`some gate`), a supply of fresh gate (channel)
names, the set of closed gates, and the goroutines. -/
structure GState where
  clients : List client
  nextclientid : Nat
  nextsessionid : Nat
  gate : Option Nat
  nextgate : Nat
  closedGates : List Nat
  gors : List Gor
deriving DecidableEq, Repr

/-- Scheduler input for one step: the dial outcome for the goroutine at
`dialing`, the choice of `reflect.Select` for a goroutine blocked on the
snapshot, plain progress otherwise. -/
inductive Move where
  | tick
  | dialRes (ok : Bool)
  | pick (j : Nat)
deriving DecidableEq, Repr

/-- The clients-lock critical section of pool.go 180-198 as one atomic
step: assign the session id if still 0, run the scan (with its
reserve-on-every-free-transport behaviour), and decide the next control
point exactly as lines 200-222 do once the lock is dropped: return the
`noblock` transport; else if the host is at the connection cap (and the
snapshot loop ran at least once, so `block != nil`) block on the snapshot;
else head for the dial gate. -/
def scanPCNext (maxc : Nat) (cs : List client) (r2 : Option Nat) : PC :=
  match r2 with
  | some j => PC.done (some j)
  | none =>
    if cs.length = maxc ∧ 0 < cs.length then PC.blockSel cs.length
    else PC.installGate

def scanSectionRes (maxc : Nat) (s : GState) (i : Nat) (g : Gor) : GState :=
  { s with clients := (scanClients s.clients).1,
           nextsessionid := if g.sid = 0 then s.nextsessionid + 1 else s.nextsessionid,
           gors := s.gors.set i
             ⟨scanPCNext maxc s.clients (scanClients s.clients).2,
              if g.sid = 0 then s.nextsessionid + 1 else g.sid⟩ }

/-- One transition of goroutine `i` with scheduler input `m`; `none` when
`i` is blocked (or no such goroutine).  The branches follow pool.go:
* entry: call `get_client` (line 150);
* checkGate: read `p.dialing[host]` under `dialing_mu` (165-167), wait on
  it if present (169-171), else head for the clients lock;
* waitGate: the receive from a closed channel returns (`_, _ = <-dialchan`);
* scan: `scanSectionRes` above;
* blockSel: `reflect.Select` over the snapshot, a blocking send on any
  snapshotted transport with a free slot (205-221);
* installGate: the `dialing_mu` critical section of 226-233: lose the race
  (gate present) and retry from the top, or install a fresh gate;
* dialing: `ssh.Dial` (271): on error the deferred cleanup runs and the
  call returns the error; on success the transport is built with its first
  slot reserved (282-288);
* appendC: the clients-lock append of 290-294;
* removeGate: the deferred 240-245: delete `dialing[host]`, close the gate;
* done: the call returned. -/
def stepGor (maxc maxs : Nat) (s : GState) (i : Nat) (m : Move) : Option GState :=
  match s.gors[i]? with
  | none => none
  | some g =>
    match g.pc, m with
    | .entry, .tick => some { s with gors := s.gors.set i { g with pc := .checkGate } }
    | .checkGate, .tick =>
      match s.gate with
      | some γ => some { s with gors := s.gors.set i { g with pc := .waitGate γ } }
      | none => some { s with gors := s.gors.set i { g with pc := .scan } }
    | .waitGate γ, .tick =>
      if γ ∈ s.closedGates then some { s with gors := s.gors.set i { g with pc := .scan } }
      else none
    | .scan, .tick => some (scanSectionRes maxc s i g)
    | .blockSel snap, .pick j =>
      match s.clients[j]? with
      | some c =>
        if j < snap ∧ c.used < c.cap then
          some { s with clients := updAt s.clients j (fun c => { c with used := c.used + 1 }),
                        gors := s.gors.set i { g with pc := .done (some j) } }
        else none
      | none => none
    | .installGate, .tick =>
      match s.gate with
      | some _ => some { s with gors := s.gors.set i { g with pc := .checkGate } }
      | none =>
        some { s with gate := some s.nextgate, nextgate := s.nextgate + 1,
                      gors := s.gors.set i { g with pc := .dialing s.nextgate } }
    | .dialing γ, .dialRes ok =>
      if ok then some { s with gors := s.gors.set i { g with pc := .appendC γ } }
      else some { s with gors := s.gors.set i { g with pc := .removeGate γ none } }
    | .appendC γ, .tick =>
      some { s with clients := s.clients ++ [⟨s.nextclientid + 1, maxs, 1⟩],
                    nextclientid := s.nextclientid + 1,
                    gors := s.gors.set i { g with pc := .removeGate γ (some s.clients.length) } }
    | .removeGate γ res, .tick =>
      some { s with gate := none, closedGates := γ :: s.closedGates,
                    gors := s.gors.set i { g with pc := .done res } }
    | _, _ => none

/-- A cold pool with `n` goroutines about to call `Get`/`GetSFTP` for the
same host. -/
def initGState (n : Nat) : GState :=
  { clients := [], nextclientid := 0, nextsessionid := 0, gate := none,
    nextgate := 0, closedGates := [], gors := List.replicate n ⟨.entry, 0⟩ }

/-- Run a concrete schedule. -/
def runTrace (maxc maxs : Nat) : List (Nat × Move) → GState → Option GState
  | [], s => some s
  | (i, m) :: rest, s =>
    match stepGor maxc maxs s i m with
    | some s' => runTrace maxc maxs rest s'
    | none => none

/-- Some goroutine takes a step. -/
def StepAny (maxc maxs : Nat) (s s' : GState) : Prop :=
  ∃ i m, stepGor maxc maxs s i m = some s'

/-- Reachability under arbitrary interleaving. -/
def Reach (maxc maxs : Nat) : GState → GState → Prop :=
  Relation.ReflTransGen (StepAny maxc maxs)

/-- The gate a goroutine holds while it is inside the dial region (from
winning the `dialing_mu` race to the deferred cleanup). -/
def regionGate : PC → Option Nat
  | .dialing γ => some γ
  | .appendC γ => some γ
  | .removeGate γ _ => some γ
  | _ => none

/-- Gate-region invariant on a goroutine list and a gate cell: every
goroutine inside the dial region holds exactly the installed gate, and at
most one goroutine is inside. -/
def MutexInvOn (gs : List Gor) (gate : Option Nat) : Prop :=
  (∀ (i : Nat) (g : Gor) (γ : Nat), gs[i]? = some g → regionGate g.pc = some γ →
    gate = some γ) ∧
  (∀ (i : Nat) (g : Gor) (j : Nat) (g' : Gor), gs[i]? = some g → gs[j]? = some g' →
    (regionGate g.pc).isSome → (regionGate g'.pc).isSome → i = j)

def MutexInv (s : GState) : Prop := MutexInvOn s.gors s.gate

/-- Session-id invariant: assigned ids never exceed the counter and are
pairwise distinct. -/
def SidInvOn (gs : List Gor) (ns : Nat) : Prop :=
  (∀ (i : Nat) (g : Gor), gs[i]? = some g → g.sid ≤ ns) ∧
  (∀ (i : Nat) (g : Gor) (j : Nat) (g' : Gor), gs[i]? = some g → gs[j]? = some g' →
    i ≠ j → g.sid ≠ 0 → g'.sid ≠ 0 → g.sid ≠ g'.sid)

def SidInv (s : GState) : Prop := SidInvOn s.gors s.nextsessionid

/-- Theorems start here. -/

theorem length_updAt (cs : List client) (i : Nat) (f : client → client) :
    (updAt cs i f).length = cs.length := by
  induction cs generalizing i with
  | nil => rfl
  | cons c rest ih => cases i <;> simp [updAt, ih]

theorem getElem?_updAt (cs : List client) (i j : Nat) (f : client → client) :
    (updAt cs i f)[j]? = if j = i then (cs[j]?).map f else cs[j]? := by
  induction cs generalizing i j with
  | nil => simp [updAt]
  | cons c rest ih =>
    cases i with
    | zero => cases j <;> simp [updAt]
    | succ n =>
      cases j with
      | zero => simp [updAt]
      | succ m => simpa [updAt] using ih n m

/-- Claim C1: the spec says the scan stops at the first transport whose
`try_acquire` succeeds and reserves exactly one slot in total.  The code's
`break` only exits the `select`, so on a host with two transports that
both have a free slot the scan reserves a slot on BOTH (two slots total)
and returns the SECOND transport, while the specified scan reserves one
slot and returns the first.  This evaluates the compiled loop at that
failing input. -/
theorem C1_scan_reserves_every_free_transport :
    scanClients [⟨1, 2, 0⟩, ⟨2, 2, 0⟩] = ([⟨1, 2, 1⟩, ⟨2, 2, 1⟩], some 1) ∧
    totalUsed (scanClients [⟨1, 2, 0⟩, ⟨2, 2, 0⟩]).1
      = totalUsed [⟨1, 2, 0⟩, ⟨2, 2, 0⟩] + 2 ∧
    scanFirstFree 0 [⟨1, 2, 0⟩, ⟨2, 2, 0⟩] = ([⟨1, 2, 1⟩, ⟨2, 2, 0⟩], some 0) := by
  refine ⟨rfl, rfl, rfl⟩

theorem scanAux_fst (cs : List client) (i : Nat) (nb : Option Nat) :
    (scanAux i nb cs).1 = cs.map freeBump := by
  induction cs generalizing i nb with
  | nil => rfl
  | cons c rest ih =>
    by_cases hc : c.used < c.cap <;> simp [scanAux, hc, freeBump, ih]

theorem scanAux_snd (cs : List client) (i : Nat) (nb : Option Nat) (j : Nat)
    (h : (scanAux i nb cs).2 = some j) :
    nb = some j ∨ (i ≤ j ∧ j - i < cs.length ∧
      ∃ c, cs[j - i]? = some c ∧ c.used < c.cap) := by
  induction cs generalizing i nb with
  | nil => exact Or.inl h
  | cons c rest ih =>
    by_cases hc : c.used < c.cap
    · simp only [scanAux, if_pos hc] at h
      rcases ih (i + 1) (some i) h with h1 | ⟨h2, h3, c', h4, h5⟩
      · right
        obtain rfl : i = j := Option.some.inj h1
        exact ⟨Nat.le_refl i, by simp, c, by simp, hc⟩
      · right
        refine ⟨Nat.le_of_succ_le h2, by simp; omega, c', ?_, h5⟩
        have hji : j - i = (j - (i + 1)) + 1 := by omega
        rw [hji]
        simpa using h4
    · simp only [scanAux, if_neg hc] at h
      rcases ih (i + 1) nb h with h1 | ⟨h2, h3, c', h4, h5⟩
      · exact Or.inl h1
      · right
        refine ⟨Nat.le_of_succ_le h2, by simp; omega, c', ?_, h5⟩
        have hji : j - i = (j - (i + 1)) + 1 := by omega
        rw [hji]
        simpa using h4

theorem scanClients_fst (cs : List client) : (scanClients cs).1 = cs.map freeBump :=
  scanAux_fst cs 0 none

theorem scanClients_found (cs : List client) (j : Nat)
    (h : (scanClients cs).2 = some j) :
    j < cs.length ∧ ∃ c, cs[j]? = some c ∧ c.used < c.cap := by
  rcases scanAux_snd cs 0 none j h with h1 | ⟨_, h3, c, h4, h5⟩
  · exact absurd h1 (by simp)
  · exact ⟨by simpa using h3, c, by simpa using h4, h5⟩

theorem totalUsed_map_freeBump (cs : List client) :
    totalUsed (cs.map freeBump) = totalUsed cs + countFree cs := by
  induction cs with
  | nil => rfl
  | cons c rest ih =>
    by_cases hc : c.used < c.cap <;>
      simp [totalUsed, countFree, freeBump, hc, List.filter_cons,
        totalUsed, countFree] at ih ⊢ <;> omega

theorem countFree_pos (cs : List client) (j : Nat) (c : client)
    (h : cs[j]? = some c) (hc : c.used < c.cap) : 0 < countFree cs := by
  induction cs generalizing j with
  | nil => simp at h
  | cons c' rest ih =>
    cases j with
    | zero =>
      obtain rfl : c' = c := by simpa using h
      simp [countFree, List.filter_cons, hc]
    | succ n =>
      by_cases hc' : c'.used < c'.cap
      · simp [countFree, List.filter_cons, hc']
      · have := ih n (by simpa using h)
        simpa [countFree, List.filter_cons, hc'] using this

theorem map_clientid_updAt (cs : List client) (i : Nat) (f : client → client)
    (hf : ∀ c, (f c).clientid = c.clientid) :
    (updAt cs i f).map client.clientid = cs.map client.clientid := by
  induction cs generalizing i with
  | nil => rfl
  | cons c rest ih => cases i <;> simp [updAt, hf, ih]

theorem totalUsed_releaseSlot (cs : List client) (i : Nat) (c : client)
    (h : cs[i]? = some c) (hc : 0 < c.used) :
    totalUsed (releaseSlot cs i) + 1 = totalUsed cs := by
  induction cs generalizing i with
  | nil => simp at h
  | cons c' rest ih =>
    cases i with
    | zero =>
      obtain rfl : c' = c := by simpa using h
      simp [releaseSlot, updAt, totalUsed]
      omega
    | succ n =>
      have := ih n (by simpa using h)
      simp [releaseSlot, updAt, totalUsed] at this ⊢
      omega

/-- Claim C2: the spec's no-leak invariant ("after every acquired handle is
released and SessionCloseDelay has elapsed, every slot semaphore has
returned to full capacity") fails.  Sequential history on one host with
MaxConnections 2, MaxSessions 1: two acquisitions (dialing transports 0
and 1), their two releases, a third acquisition (whose scan reserves a
slot on BOTH now-free transports and returns the second), and its release.
Every acquired handle (`[0, 1, 1]`, collected by the interpreter) has been
put back and the quiet delay has elapsed (`putRelease` is the post-delay
effect), yet the first transport still holds one reserved slot. -/
theorem C2_slot_not_returned_after_all_puts :
    runOps 2 1 [.opGet true, .opGet true, .opPut 0, .opPut 1, .opGet true, .opPut 1]
        ⟨[], 0, 0⟩ []
      = some (⟨[⟨1, 1, 1⟩, ⟨2, 1, 0⟩], 2, 3⟩, [0, 1, 1]) ∧
    totalUsed [⟨1, 1, 1⟩, ⟨2, 1, 0⟩] ≠ 0 := ⟨rfl, by decide⟩

theorem totalUsed_append (xs ys : List client) :
    totalUsed (xs ++ ys) = totalUsed xs + totalUsed ys := by
  simp [totalUsed]

theorem get_client_seq_got_spec (maxc maxs : Nat) (dialOk : Bool) (st st' : HostState)
    (j sid : Nat) (h : get_client_seq maxc maxs dialOk st = .got st' j sid) :
    (∃ c, st'.cs[j]? = some c ∧ 0 < c.used) ∧
    totalUsed st.cs + 1 ≤ totalUsed st'.cs ∧
    sid = st.nextsessionid + 1 := by
  simp only [get_client_seq] at h
  rcases hsc : (scanClients st.cs).2 with _ | k
  · rw [hsc] at h
    by_cases hb : st.cs.length = maxc ∧ 0 < st.cs.length
    · rw [if_pos hb] at h
      exact absurd h (by simp)
    · rw [if_neg hb] at h
      cases hd : dialOk with
      | false => rw [hd] at h; exact absurd h (by simp)
      | true =>
        rw [hd, if_pos rfl] at h
        injection h with h1 h2 h3
        subst h1 h2 h3
        refine ⟨⟨⟨st.nextclientid + 1, maxs, 1⟩, ?_, Nat.zero_lt_one⟩, ?_, rfl⟩
        · exact List.getElem?_concat_length (scanClients st.cs).1 _
        · show totalUsed st.cs + 1 ≤ totalUsed ((scanClients st.cs).1 ++ _)
          rw [totalUsed_append, scanClients_fst, totalUsed_map_freeBump]
          simp [totalUsed]
  · rw [hsc] at h
    injection h with h1 h2 h3
    subst h1 h2 h3
    obtain ⟨hk, c, hc, hfree⟩ := scanClients_found st.cs k hsc
    refine ⟨⟨freeBump c, ?_, by simp [freeBump, hfree]⟩, ?_, rfl⟩
    · rw [scanClients_fst, List.getElem?_map, hc]
      rfl
    · rw [scanClients_fst, totalUsed_map_freeBump]
      have := countFree_pos st.cs k c hc hfree
      omega

/-- Claim C6 counterexample: a failed session open does NOT leave the
registry unchanged.  On a cold pool, `Get` dials a new transport, appends
it to the registry, and only then tries `NewSession`; when that fails the
slot is given back but the freshly dialed transport stays in the registry:
the failed call changed the registry from no transports to one. -/
theorem C6_failed_open_after_dial_changes_registry :
    Get_seq 1 1 true false ⟨[], 0, 0⟩ = .err ⟨[⟨1, 1, 0⟩], 1, 1⟩ ∧
    (⟨[⟨1, 1, 0⟩], 1, 1⟩ : HostState).cs.map client.clientid ≠
      (⟨[], 0, 0⟩ : HostState).cs.map client.clientid := ⟨rfl, by decide⟩

/-- Claim C6 as amended: whenever `NewSession` (or `sftp.NewClient`) fails
after `get_client` succeeded, the slot reserved on the returned transport
is released immediately (exactly one token, its count drops by one), the
caller gets an error with no handle (`GetOut.err` carries no session), and
the failure handling removes no transport: the transport list, including a
transport newly dialed by this very call, is exactly the one `get_client`
left. -/
theorem C6_failed_open_releases_slot_keeps_transports
    (maxc maxs : Nat) (dialOk : Bool) (st st' : HostState) (j sid : Nat)
    (h : get_client_seq maxc maxs dialOk st = .got st' j sid) :
    ∃ c, st'.cs[j]? = some c ∧ 0 < c.used ∧
      Get_seq maxc maxs dialOk false st = .err { st' with cs := releaseSlot st'.cs j } ∧
      GetSFTP_seq maxc maxs dialOk false st = .err { st' with cs := releaseSlot st'.cs j } ∧
      (releaseSlot st'.cs j).map client.clientid = st'.cs.map client.clientid ∧
      totalUsed (releaseSlot st'.cs j) + 1 = totalUsed st'.cs := by
  obtain ⟨⟨c, hc, hcu⟩, _, _⟩ := get_client_seq_got_spec maxc maxs dialOk st st' j sid h
  refine ⟨c, hc, hcu, ?_, ?_, ?_, ?_⟩
  · unfold Get_seq
    rw [h]
    simp
  · unfold GetSFTP_seq
    rw [h]
    simp
  · exact map_clientid_updAt st'.cs j _ (fun c => rfl)
  · exact totalUsed_releaseSlot st'.cs j c hc hcu

/-- Witness for the amended C6 at a concrete input: a host with one
transport that has a free slot; the scan reserves it, the session open
fails, the slot is returned and the transport stays. -/
theorem C6_failed_open_releases_slot_keeps_transports_witness :
    get_client_seq 1 2 true ⟨[⟨1, 2, 0⟩], 1, 0⟩ = .got ⟨[⟨1, 2, 1⟩], 1, 1⟩ 0 1 ∧
    ∃ c, (⟨[⟨1, 2, 1⟩], 1, 1⟩ : HostState).cs[0]? = some c ∧ 0 < c.used ∧
      Get_seq 1 2 true false ⟨[⟨1, 2, 0⟩], 1, 0⟩
        = .err ⟨releaseSlot [⟨1, 2, 1⟩] 0, 1, 1⟩ ∧
      GetSFTP_seq 1 2 true false ⟨[⟨1, 2, 0⟩], 1, 0⟩
        = .err ⟨releaseSlot [⟨1, 2, 1⟩] 0, 1, 1⟩ ∧
      (releaseSlot [⟨1, 2, 1⟩] 0).map client.clientid
        = [⟨1, 2, 1⟩].map client.clientid ∧
      totalUsed (releaseSlot [⟨1, 2, 1⟩] 0) + 1 = totalUsed [⟨1, 2, 1⟩] :=
  ⟨rfl, C6_failed_open_releases_slot_keeps_transports 1 2 true
    ⟨[⟨1, 2, 0⟩], 1, 0⟩ ⟨[⟨1, 2, 1⟩], 1, 1⟩ 0 1 rfl⟩

theorem closeFold_nil (m acc : List (Nat × List client))
    (h : ∀ p ∈ acc, p.1 ∈ m.map Prod.fst) : closeFold m acc = [] := by
  induction m generalizing acc with
  | nil =>
    have : acc = [] := by
      cases acc with
      | nil => rfl
      | cons p rest => exact absurd (h p (by simp)) (by simp)
    simp [this, closeFold]
  | cons q rest ih =>
    show closeFold rest (acc.filter fun p => p.1 ≠ q.1) = []
    refine ih _ (fun p hp => ?_)
    rcases List.mem_filter.mp hp with ⟨hmem, hne⟩
    have hne' : p.1 ≠ q.1 := by simpa using hne
    have := h p hmem
    simp only [List.map_cons, List.mem_cons] at this
    rcases this with h1 | h1
    · exact absurd h1 hne'
    · exact h1

theorem closeLoopEvents_all_closes (m : List (Nat × List client)) :
    ∀ e ∈ closeLoopEvents m, isCloseEv e = true := by
  induction m with
  | nil => simp [closeLoopEvents]
  | cons q rest ih =>
    intro e he
    rcases q with ⟨h, cs⟩
    simp only [closeLoopEvents, List.mem_append] at he
    rcases he with he | he
    · rcases List.mem_map.mp he with ⟨c, _, rfl⟩
      rfl
    · exact ih e he

theorem closeLoopEvents_mem (m : List (Nat × List client)) (p : Nat × List client)
    (c : client) (hp : p ∈ m) (hc : c ∈ p.2) :
    CloseEv.closeTransport c.clientid ∈ closeLoopEvents m := by
  induction m with
  | nil => simp at hp
  | cons q rest ih =>
    rcases List.mem_cons.mp hp with rfl | hp'
    · rcases p with ⟨h, cs⟩
      simp only [closeLoopEvents, List.mem_append]
      exact Or.inl (List.mem_map.mpr ⟨c, hc, rfl⟩)
    · rcases q with ⟨h, cs⟩
      simp only [closeLoopEvents, List.mem_append]
      exact Or.inr (ih hp')

theorem idxOfEv_cons (p : CloseEv → Bool) (e : CloseEv) (rest : List CloseEv) :
    idxOfEv p (e :: rest)
      = if p e = true then some 0 else (idxOfEv p rest).map (· + 1) := rfl

theorem idxOfEv_all_false (p : CloseEv → Bool) (xs : List CloseEv) (u : CloseEv)
    (hxs : ∀ e ∈ xs, p e = false) (hu : p u = true) :
    idxOfEv p (xs ++ [u]) = some xs.length := by
  induction xs with
  | nil => simp [idxOfEv, hu]
  | cons e es ih =>
    have he : p e = false := hxs e (by simp)
    rw [List.cons_append, idxOfEv_cons, he,
      ih (fun e' he' => hxs e' (by simp [he']))]
    simp

/-- Claim C7 counterexample: on a pool with one host and one transport,
the `Pool.Close` event trace is lock, close transport, unlock: the first
transport close (trace index 1) happens BEFORE the unlock (trace index 2),
because the unlock is deferred to function exit; the clients lock is held
across the network I/O of closing the SSH connection, contrary to the
claim that it is released first. -/
theorem C7_close_holds_lock_while_closing :
    (poolClose [(0, [⟨1, 4, 0⟩])]).1
      = [CloseEv.lockClients, CloseEv.closeTransport 1, CloseEv.unlockClients] ∧
    idxOfEv isCloseEv (poolClose [(0, [⟨1, 4, 0⟩])]).1 = some 1 ∧
    idxOfEv isUnlockEv (poolClose [(0, [⟨1, 4, 0⟩])]).1 = some 2 ∧
    ¬ (2 : Nat) < 1 := ⟨rfl, rfl, rfl, by decide⟩

/-- Claim C7 as amended: `Pool.Close` empties the clients map for every
host (the final map is empty), but the transports are closed while the
clients lock is held: whenever the registry holds at least one transport,
the first transport-close event precedes the unlock event, which is the
last event of the trace (the lock is released only after all transports
are closed). -/
theorem C7_close_empties_map_under_lock (m : List (Nat × List client)) :
    (poolClose m).2 = [] ∧
    (poolClose m).1.getLast? = some CloseEv.unlockClients ∧
    ∀ p c, p ∈ m → c ∈ p.2 →
      ∃ iC iU, idxOfEv isCloseEv (poolClose m).1 = some iC ∧
        idxOfEv isUnlockEv (poolClose m).1 = some iU ∧ iC < iU := by
  refine ⟨closeFold_nil m m (fun p hp => List.mem_map.mpr ⟨p, hp, rfl⟩), ?_, ?_⟩
  · show (CloseEv.lockClients :: (closeLoopEvents m ++ [CloseEv.unlockClients])).getLast? = _
    rw [List.getLast?_cons, List.getLast?_append]
    rfl
  · intro p c hp hc
    have hmem := closeLoopEvents_mem m p c hp hc
    have hall := closeLoopEvents_all_closes m
    obtain ⟨e, es, hcons⟩ : ∃ e es, closeLoopEvents m = e :: es := by
      cases hevs : closeLoopEvents m with
      | nil => rw [hevs] at hmem; simp at hmem
      | cons e es => exact ⟨e, es, rfl⟩
    have hlen : 0 < (closeLoopEvents m).length := by rw [hcons]; simp
    refine ⟨1, (closeLoopEvents m).length + 1, ?_, ?_, by omega⟩
    · show idxOfEv isCloseEv
        (CloseEv.lockClients :: (closeLoopEvents m ++ [CloseEv.unlockClients])) = _
      have he : isCloseEv e = true := hall e (by rw [hcons]; simp)
      have hlock : isCloseEv CloseEv.lockClients = false := rfl
      rw [idxOfEv_cons, hlock, hcons, List.cons_append, idxOfEv_cons, he]
      simp
    · show idxOfEv isUnlockEv
        (CloseEv.lockClients :: (closeLoopEvents m ++ [CloseEv.unlockClients])) = _
      have hmid : idxOfEv isUnlockEv (closeLoopEvents m ++ [CloseEv.unlockClients])
          = some (closeLoopEvents m).length := by
        refine idxOfEv_all_false _ _ _ (fun e' he' => ?_) rfl
        have := hall e' he'
        cases e' <;> simp_all [isCloseEv, isUnlockEv]
      have hlock : isUnlockEv CloseEv.lockClients = false := rfl
      rw [idxOfEv_cons, hlock, hmid]
      simp

/-- Witness for the amended C7 on a concrete one-host, one-transport map. -/
theorem C7_close_empties_map_under_lock_witness :
    (poolClose [(0, [⟨1, 4, 0⟩])]).2 = [] ∧
    ((0, [⟨1, 4, 0⟩]) : Nat × List client) ∈ [(0, [⟨1, 4, 0⟩])] ∧
    (⟨1, 4, 0⟩ : client) ∈ [(⟨1, 4, 0⟩ : client)] ∧
    ∃ iC iU, idxOfEv isCloseEv (poolClose [(0, [⟨1, 4, 0⟩])]).1 = some iC ∧
      idxOfEv isUnlockEv (poolClose [(0, [⟨1, 4, 0⟩])]).1 = some iU ∧ iC < iU :=
  ⟨(C7_close_empties_map_under_lock [(0, [⟨1, 4, 0⟩])]).1, by decide, by decide,
    (C7_close_empties_map_under_lock [(0, [⟨1, 4, 0⟩])]).2.2 (0, [⟨1, 4, 0⟩]) ⟨1, 4, 0⟩
      (by decide) (by decide)⟩

/-- Claim C8 counterexample: the tunnel's forward path DOES reserve a
session slot.  On a host with one transport (capacity 10, no slot in use),
one forwarded connection runs to completion: `get_client` reserves a slot
(the scan's non-blocking send succeeds), `forward` never receives it back,
and the transport is closed with the slot still outstanding: the
transport's `used` count is 1, not 0, after the connection completed. -/
theorem C8_forward_consumes_slot :
    forwardRun 1 10 true ⟨[⟨1, 10, 0⟩], 1, 0⟩
      = some (⟨[⟨1, 10, 1⟩], 1, 1⟩,
          [FwdEv.acquiredTransport 1, FwdEv.closedTransport 1], 0) ∧
    totalUsed [⟨1, 10, 1⟩] = totalUsed [⟨1, 10, 0⟩] + 1 ∧
    totalUsed [⟨1, 10, 1⟩] ≠ 0 := ⟨rfl, rfl, by decide⟩

/-- Claim C8 as amended: for every completed forwarded connection, the
forward path acquires its transport through the same `get_client`
admission path as sessions, which reserves a session slot on it (at least
one slot more is outstanding afterwards, and the chosen transport holds a
reservation); the tunnel never releases any slot, and it closes the pooled
transport when the individual forwarded connection completes (the close of
the chosen transport is the last event). -/
theorem C8_forward_reserves_and_closes (maxc maxs : Nat) (dialOk : Bool)
    (st stf : HostState) (evs : List FwdEv) (j : Nat)
    (h : forwardRun maxc maxs dialOk st = some (stf, evs, j)) :
    ∃ c, stf.cs[j]? = some c ∧ 0 < c.used ∧
      evs = [FwdEv.acquiredTransport c.clientid, FwdEv.closedTransport c.clientid] ∧
      (∀ cid, FwdEv.releasedSlot cid ∉ evs) ∧
      totalUsed st.cs + 1 ≤ totalUsed stf.cs := by
  unfold forwardRun at h
  cases hg : get_client_seq maxc maxs dialOk st with
  | wouldBlock st' => simp only [hg] at h; exact Option.noConfusion h
  | dialErr st' => simp only [hg] at h; exact Option.noConfusion h
  | got st' j' sid =>
    simp only [hg] at h
    cases hc' : st'.cs[j']? with
    | none => simp only [hc'] at h; exact Option.noConfusion h
    | some c =>
      simp only [hc', Option.some.injEq, Prod.mk.injEq] at h
      obtain ⟨rfl, rfl, rfl⟩ := h
      obtain ⟨⟨c₀, hc₀, hu₀⟩, htot, _⟩ :=
        get_client_seq_got_spec maxc maxs dialOk st st' j' sid hg
      have hcc : c₀ = c := Option.some.inj (hc₀.symm.trans hc')
      refine ⟨c, hc', hcc ▸ hu₀, rfl, ?_, htot⟩
      intro cid hmem
      simp at hmem

/-- Witness for the amended C8 at the concrete one-transport host. -/
theorem C8_forward_reserves_and_closes_witness :
    forwardRun 1 10 true ⟨[⟨1, 10, 0⟩], 1, 0⟩
      = some (⟨[⟨1, 10, 1⟩], 1, 1⟩,
          [FwdEv.acquiredTransport 1, FwdEv.closedTransport 1], 0) ∧
    ∃ c, (⟨[⟨1, 10, 1⟩], 1, 1⟩ : HostState).cs[0]? = some c ∧ 0 < c.used ∧
      [FwdEv.acquiredTransport 1, FwdEv.closedTransport 1]
        = [FwdEv.acquiredTransport c.clientid, FwdEv.closedTransport c.clientid] ∧
      (∀ cid, FwdEv.releasedSlot cid
        ∉ [FwdEv.acquiredTransport 1, FwdEv.closedTransport 1]) ∧
      totalUsed [⟨1, 10, 0⟩] + 1 ≤ totalUsed [⟨1, 10, 1⟩] :=
  ⟨rfl, C8_forward_reserves_and_closes 1 10 true ⟨[⟨1, 10, 0⟩], 1, 0⟩
    ⟨[⟨1, 10, 1⟩], 1, 1⟩ [FwdEv.acquiredTransport 1, FwdEv.closedTransport 1] 0 rfl⟩

theorem containsByte_append (b : Char) (xs ys : List Char) :
    containsByte b (xs ++ ys) = (containsByte b xs || containsByte b ys) := by
  induction xs with
  | nil => simp [containsByte]
  | cons c rest ih => simp [containsByte, ih, Bool.or_assoc]

theorem indexOfByte_split (b : Char) (xs rest : List Char)
    (hx : containsByte b xs = false) :
    indexOfByte b (xs ++ b :: rest) = some xs.length := by
  induction xs with
  | nil => simp [indexOfByte]
  | cons c cs ih =>
    simp only [containsByte, Bool.or_eq_false_iff, decide_eq_false_iff_not] at hx
    simp [indexOfByte, hx.1, ih hx.2]

theorem drop_append_cons (xs : List Char) (b : Char) (rest : List Char) :
    (xs ++ b :: rest).drop (xs.length + 1) = rest := by
  induction xs with
  | nil => simp
  | cons c cs ih => simpa using ih

theorem take_append_cons (xs : List Char) (b : Char) (rest : List Char) :
    (xs ++ b :: rest).take xs.length = xs := by
  induction xs with
  | nil => simp
  | cons c cs ih => simpa using ih

theorem dialAddrConfig_with_user (user hostport : List Char) (cfg : ClientConfig)
    (hu1 : containsByte '@' user = false)
    (hu2 : containsByte ':' user = false) :
    dialAddrConfig (user ++ '@' :: hostport) cfg
      = (if containsByte ':' hostport then hostport else hostport ++ [':', '2', '2'],
         { cfg with User := user }) := by
  have hcolon : containsByte ':' (user ++ '@' :: hostport) = containsByte ':' hostport := by
    rw [containsByte_append, hu2]
    simp [containsByte]
  unfold dialAddrConfig
  cases hc : containsByte ':' hostport with
  | true =>
    rw [hcolon, hc]
    simp only [if_true]
    rw [indexOfByte_split '@' user hostport hu1]
    simp [drop_append_cons, take_append_cons]
  | false =>
    rw [hcolon, hc]
    simp only [Bool.false_eq_true, if_false]
    have hassoc : (user ++ '@' :: hostport) ++ [':', '2', '2']
        = user ++ '@' :: (hostport ++ [':', '2', '2']) := by simp
    rw [hassoc, indexOfByte_split '@' user _ hu1]
    simp [drop_append_cons, take_append_cons]

theorem indexOfByte_eq_none (b : Char) (xs : List Char)
    (hx : containsByte b xs = false) : indexOfByte b xs = none := by
  induction xs with
  | nil => rfl
  | cons c cs ih =>
    simp only [containsByte, Bool.or_eq_false_iff, decide_eq_false_iff_not] at hx
    simp [indexOfByte, hx.1, ih hx.2]

theorem dialAddrConfig_no_user (hostport : List Char) (cfg : ClientConfig)
    (hh : containsByte '@' hostport = false) :
    dialAddrConfig hostport cfg
      = (if containsByte ':' hostport then hostport else hostport ++ [':', '2', '2'],
         cfg) := by
  unfold dialAddrConfig
  cases hc : containsByte ':' hostport with
  | true =>
    simp only [if_true]
    rw [indexOfByte_eq_none '@' hostport hh]
  | false =>
    simp only [Bool.false_eq_true, if_false]
    rw [indexOfByte_eq_none '@' (hostport ++ [':', '2', '2'])
      (by rw [containsByte_append, hh]; rfl)]

/-- Claim C9: over the whole host grammar `[user@]hostname_or_ip[:port]`
(a user part holds no '@' and no ':'; the host part holds no '@').  A host
string of the grammar either has the form `user ++ "@" ++ hostport` or is
a bare `hostport`, and the two conjuncts cover the two forms.  With
`user@` present, the dial uses a shallow copy of the pool config in which
only `User` is replaced by `user` (every other field, collapsed into
`Rest`, is copied) and the pool's stored config object is unchanged
afterwards (third component); without it, the pool's config is used as
is.  In both forms the dial address is the host part, with ":22" appended
exactly when it names no port. -/
theorem C9_user_at_host_dial (p : PoolCfg) (user hostport : List Char)
    (hu1 : containsByte '@' user = false)
    (hu2 : containsByte ':' user = false)
    (hh : containsByte '@' hostport = false) :
    get_client_dialPrep p (user ++ '@' :: hostport)
      = ((if containsByte ':' hostport then hostport
          else hostport ++ [':', '2', '2']),
         { p.config with User := user }, p) ∧
    get_client_dialPrep p hostport
      = ((if containsByte ':' hostport then hostport
          else hostport ++ [':', '2', '2']),
         p.config, p) := by
  constructor
  · unfold get_client_dialPrep
    rw [dialAddrConfig_with_user user hostport p.config hu1 hu2]
  · unfold get_client_dialPrep
    rw [dialAddrConfig_no_user hostport p.config hh]

/-- Witness for C9, applying the theorem at the spec section 8 example
(user "alice", host part "h3:2222", port present) and at the portless host
part "h3": "alice@h3:2222" dials h3:2222 with effective user alice and the
pool's credential (default user "bob", other fields 7) unchanged;
"alice@h3" and bare "h3" dial "h3:22" (the port defaults to 22). -/
theorem C9_user_at_host_dial_witness :
    containsByte '@' ['a', 'l', 'i', 'c', 'e'] = false ∧
    containsByte ':' ['a', 'l', 'i', 'c', 'e'] = false ∧
    containsByte '@' ['h', '3', ':', '2', '2', '2', '2'] = false ∧
    containsByte '@' ['h', '3'] = false ∧
    (get_client_dialPrep ⟨⟨['b', 'o', 'b'], 7⟩⟩
        (['a', 'l', 'i', 'c', 'e'] ++ '@' :: ['h', '3', ':', '2', '2', '2', '2'])
      = ((if containsByte ':' ['h', '3', ':', '2', '2', '2', '2']
          then ['h', '3', ':', '2', '2', '2', '2']
          else ['h', '3', ':', '2', '2', '2', '2'] ++ [':', '2', '2']),
         { (⟨⟨['b', 'o', 'b'], 7⟩⟩ : PoolCfg).config with User := ['a', 'l', 'i', 'c', 'e'] },
         ⟨⟨['b', 'o', 'b'], 7⟩⟩) ∧
     get_client_dialPrep ⟨⟨['b', 'o', 'b'], 7⟩⟩ ['h', '3', ':', '2', '2', '2', '2']
      = ((if containsByte ':' ['h', '3', ':', '2', '2', '2', '2']
          then ['h', '3', ':', '2', '2', '2', '2']
          else ['h', '3', ':', '2', '2', '2', '2'] ++ [':', '2', '2']),
         (⟨⟨['b', 'o', 'b'], 7⟩⟩ : PoolCfg).config, ⟨⟨['b', 'o', 'b'], 7⟩⟩)) ∧
    (get_client_dialPrep ⟨⟨['b', 'o', 'b'], 7⟩⟩
        (['a', 'l', 'i', 'c', 'e'] ++ '@' :: ['h', '3'])
      = ((if containsByte ':' ['h', '3'] then ['h', '3'] else ['h', '3'] ++ [':', '2', '2']),
         { (⟨⟨['b', 'o', 'b'], 7⟩⟩ : PoolCfg).config with User := ['a', 'l', 'i', 'c', 'e'] },
         ⟨⟨['b', 'o', 'b'], 7⟩⟩) ∧
     get_client_dialPrep ⟨⟨['b', 'o', 'b'], 7⟩⟩ ['h', '3']
      = ((if containsByte ':' ['h', '3'] then ['h', '3'] else ['h', '3'] ++ [':', '2', '2']),
         (⟨⟨['b', 'o', 'b'], 7⟩⟩ : PoolCfg).config, ⟨⟨['b', 'o', 'b'], 7⟩⟩)) ∧
    (if containsByte ':' ['h', '3'] then ['h', '3'] else ['h', '3'] ++ [':', '2', '2'])
      = ['h', '3', ':', '2', '2'] :=
  ⟨rfl, rfl, rfl, rfl,
   C9_user_at_host_dial ⟨⟨['b', 'o', 'b'], 7⟩⟩ ['a', 'l', 'i', 'c', 'e']
     ['h', '3', ':', '2', '2', '2', '2'] rfl rfl rfl,
   C9_user_at_host_dial ⟨⟨['b', 'o', 'b'], 7⟩⟩ ['a', 'l', 'i', 'c', 'e']
     ['h', '3'] rfl rfl rfl,
   rfl⟩

/-- Claim C10 counterexample: the public configuration CAN produce a
zero-length quiet period.  `SessionCloseDelay` is a signed `time.Duration`;
configuring -1 skips the zero-check, and `time.Sleep` of a negative
duration returns immediately: the realized quiet period is 0. -/
theorem C10_negative_delay_zero_quiet :
    sessionPutQuiet (-1) = 0 ∧ ((-1 : Int) = 0) = False := by
  constructor
  · rfl
  · simp

/-- Claim C10 as amended: `Session.Put` and `SFTPSession.Put` make the same
choice from the configuration value read at release time: a configured 0
selects the 20 ms default, so every non-negative configured value yields a
strictly positive quiet period (a zero-length quiet period cannot be
configured by a zero value; a negative value still can produce one); the
goroutine sleeps before it releases the slot. -/
theorem C10_put_delay_zero_uses_default (d : Int) (hd : 0 ≤ d) :
    sessionPutSleep 0 = DefaultSessionCloseDelayMs ∧
    sftpSessionPutSleep 0 = DefaultSessionCloseDelayMs ∧
    DefaultSessionCloseDelayMs = 20 ∧
    sessionPutSleep d = sftpSessionPutSleep d ∧
    0 < sessionPutQuiet d ∧
    sessionPutEvents d = [PutEv.sleepFor (sessionPutSleep d), PutEv.releaseTok] := by
  refine ⟨rfl, rfl, rfl, rfl, ?_, rfl⟩
  rcases lt_or_eq_of_le hd with hpos | h0
  · unfold sessionPutQuiet realizedQuiet sessionPutSleep
    rw [if_neg (by omega)]
    exact lt_max_of_lt_left hpos
  · rw [← h0]
    decide

/-- Witness for the amended C10 at the configured delay 7 ms. -/
theorem C10_put_delay_zero_uses_default_witness :
    (0 : Int) ≤ 7 ∧
    (sessionPutSleep 0 = DefaultSessionCloseDelayMs ∧
      sftpSessionPutSleep 0 = DefaultSessionCloseDelayMs ∧
      DefaultSessionCloseDelayMs = 20 ∧
      sessionPutSleep 7 = sftpSessionPutSleep 7 ∧
      0 < sessionPutQuiet 7 ∧
      sessionPutEvents 7 = [PutEv.sleepFor (sessionPutSleep 7), PutEv.releaseTok]) :=
  ⟨by decide, C10_put_delay_zero_uses_default 7 (by decide)⟩

theorem stepGor_cases (maxc maxs : Nat) (s : GState) (i : Nat) (m : Move) (s' : GState)
    (h : stepGor maxc maxs s i m = some s') :
    ∃ g, s.gors[i]? = some g ∧
    ((g.pc = .entry ∧ s' = { s with gors := s.gors.set i { g with pc := .checkGate } }) ∨
     (∃ γ, g.pc = .checkGate ∧ s.gate = some γ ∧
       s' = { s with gors := s.gors.set i { g with pc := .waitGate γ } }) ∨
     (g.pc = .checkGate ∧ s.gate = none ∧
       s' = { s with gors := s.gors.set i { g with pc := .scan } }) ∨
     (∃ γ, g.pc = .waitGate γ ∧ γ ∈ s.closedGates ∧
       s' = { s with gors := s.gors.set i { g with pc := .scan } }) ∨
     (g.pc = .scan ∧ s' = scanSectionRes maxc s i g) ∨
     (∃ snap j c, g.pc = .blockSel snap ∧ s.clients[j]? = some c ∧ j < snap ∧
       c.used < c.cap ∧
       s' = { s with clients := updAt s.clients j (fun c => { c with used := c.used + 1 }),
                     gors := s.gors.set i { g with pc := .done (some j) } }) ∨
     (∃ γ, g.pc = .installGate ∧ s.gate = some γ ∧
       s' = { s with gors := s.gors.set i { g with pc := .checkGate } }) ∨
     (g.pc = .installGate ∧ s.gate = none ∧
       s' = { s with gate := some s.nextgate, nextgate := s.nextgate + 1,
                     gors := s.gors.set i { g with pc := .dialing s.nextgate } }) ∨
     (∃ γ, g.pc = .dialing γ ∧
       (s' = { s with gors := s.gors.set i { g with pc := .appendC γ } } ∨
        s' = { s with gors := s.gors.set i { g with pc := .removeGate γ none } })) ∨
     (∃ γ, g.pc = .appendC γ ∧
       s' = { s with clients := s.clients ++ [⟨s.nextclientid + 1, maxs, 1⟩],
                     nextclientid := s.nextclientid + 1,
                     gors := s.gors.set i
                       { g with pc := .removeGate γ (some s.clients.length) } }) ∨
     (∃ γ res, g.pc = .removeGate γ res ∧
       s' = { s with gate := none, closedGates := γ :: s.closedGates,
                     gors := s.gors.set i { g with pc := .done res } })) := by
  unfold stepGor at h
  cases hg : s.gors[i]? with
  | none => rw [hg] at h; exact Option.noConfusion h
  | some g =>
    simp only [hg] at h
    refine ⟨g, rfl, ?_⟩
    split at h
    · exact Or.inl ⟨‹g.pc = PC.entry›, (Option.some.inj h).symm⟩
    · split at h
      · rename_i γ hgt
        exact Or.inr (Or.inl ⟨γ, ‹g.pc = PC.checkGate›, hgt, (Option.some.inj h).symm⟩)
      · rename_i hgt
        exact Or.inr (Or.inr (Or.inl ⟨‹g.pc = PC.checkGate›, hgt, (Option.some.inj h).symm⟩))
    · rename_i γ hpc
      split at h
      · exact Or.inr (Or.inr (Or.inr (Or.inl
          ⟨γ, hpc, ‹γ ∈ s.closedGates›, (Option.some.inj h).symm⟩)))
      · exact Option.noConfusion h
    · exact Or.inr (Or.inr (Or.inr (Or.inr (Or.inl
        ⟨‹g.pc = PC.scan›, (Option.some.inj h).symm⟩))))
    · rename_i snap j hpc
      split at h
      · rename_i c hcj
        split at h
        · exact Or.inr (Or.inr (Or.inr (Or.inr (Or.inr (Or.inl
            ⟨snap, j, c, hpc, hcj, ‹j < snap ∧ c.used < c.cap›.1,
             ‹j < snap ∧ c.used < c.cap›.2, (Option.some.inj h).symm⟩)))))
        · exact Option.noConfusion h
      · exact Option.noConfusion h
    · split at h
      · rename_i γ hgt
        exact Or.inr (Or.inr (Or.inr (Or.inr (Or.inr (Or.inr (Or.inl
          ⟨γ, ‹g.pc = PC.installGate›, hgt, (Option.some.inj h).symm⟩))))))
      · rename_i hgt
        exact Or.inr (Or.inr (Or.inr (Or.inr (Or.inr (Or.inr (Or.inr (Or.inl
          ⟨‹g.pc = PC.installGate›, hgt, (Option.some.inj h).symm⟩)))))))
    · rename_i γ ok hpc
      split at h
      · exact Or.inr (Or.inr (Or.inr (Or.inr (Or.inr (Or.inr (Or.inr (Or.inr (Or.inl
          ⟨γ, hpc, Or.inl (Option.some.inj h).symm⟩))))))))
      · exact Or.inr (Or.inr (Or.inr (Or.inr (Or.inr (Or.inr (Or.inr (Or.inr (Or.inl
          ⟨γ, hpc, Or.inr (Option.some.inj h).symm⟩))))))))
    · rename_i γ hpc
      exact Or.inr (Or.inr (Or.inr (Or.inr (Or.inr (Or.inr (Or.inr (Or.inr (Or.inr (Or.inl
        ⟨γ, hpc, (Option.some.inj h).symm⟩)))))))))
    · rename_i γ res hpc
      exact Or.inr (Or.inr (Or.inr (Or.inr (Or.inr (Or.inr (Or.inr (Or.inr (Or.inr (Or.inr
        ⟨γ, res, hpc, (Option.some.inj h).symm⟩)))))))))
    · exact Option.noConfusion h

theorem regionGate_scanPCNext (maxc : Nat) (cs : List client) (r2 : Option Nat) :
    regionGate (scanPCNext maxc cs r2) = none := by
  cases r2 with
  | some j => rfl
  | none =>
    show regionGate (if cs.length = maxc ∧ 0 < cs.length
      then PC.blockSel cs.length else PC.installGate) = none
    split <;> rfl

theorem getElem?_lt_length {α : Type} (l : List α) (i : Nat) (a : α)
    (h : l[i]? = some a) : i < l.length := by
  by_contra hlen
  rw [List.getElem?_eq_none (Nat.le_of_not_lt hlen)] at h
  exact Option.noConfusion h

theorem mutexInvOn_set_nonregion (gs : List Gor) (gate : Option Nat) (i : Nat) (g g' : Gor)
    (hinv : MutexInvOn gs gate) (hi : gs[i]? = some g) (hg' : regionGate g'.pc = none) :
    MutexInvOn (gs.set i g') gate := by
  obtain ⟨h1, h2⟩ := hinv
  have hilen : i < gs.length := getElem?_lt_length gs i g hi
  constructor
  · intro j gj γ hj hr
    rw [List.getElem?_set] at hj
    by_cases hij : i = j
    · rw [if_pos hij, if_pos hilen] at hj
      rw [← Option.some.inj hj] at hr
      rw [hg'] at hr
      exact Option.noConfusion hr
    · rw [if_neg hij] at hj
      exact h1 j gj γ hj hr
  · intro j gj k gk hj hk hrj hrk
    rw [List.getElem?_set] at hj hk
    by_cases hij : i = j
    · rw [if_pos hij, if_pos hilen] at hj
      rw [← Option.some.inj hj, hg'] at hrj
      exact absurd hrj (by simp)
    · rw [if_neg hij] at hj
      by_cases hik : i = k
      · rw [if_pos hik, if_pos hilen] at hk
        rw [← Option.some.inj hk, hg'] at hrk
        exact absurd hrk (by simp)
      · rw [if_neg hik] at hk
        exact h2 j gj k gk hj hk hrj hrk

theorem mutexInvOn_install (gs : List Gor) (i : Nat) (g : Gor) (γ : Nat) (pc' : PC)
    (hinv : MutexInvOn gs none) (hi : gs[i]? = some g) (hpc' : regionGate pc' = some γ) :
    MutexInvOn (gs.set i { g with pc := pc' }) (some γ) := by
  obtain ⟨h1, h2⟩ := hinv
  have hilen : i < gs.length := getElem?_lt_length gs i g hi
  constructor
  · intro j gj δ hj hr
    rw [List.getElem?_set] at hj
    by_cases hij : i = j
    · rw [if_pos hij, if_pos hilen] at hj
      rw [← Option.some.inj hj] at hr
      simp only [hpc'] at hr
      rw [← hr]
    · rw [if_neg hij] at hj
      exact absurd (h1 j gj δ hj hr) (by simp)
  · intro j gj k gk hj hk hrj hrk
    rw [List.getElem?_set] at hj hk
    by_cases hij : i = j
    · by_cases hik : i = k
      · omega
      · rw [if_neg hik] at hk
        rcases Option.isSome_iff_exists.mp hrk with ⟨δ, hδ⟩
        exact absurd (h1 k gk δ hk hδ) (by simp)
    · rw [if_neg hij] at hj
      rcases Option.isSome_iff_exists.mp hrj with ⟨δ, hδ⟩
      exact absurd (h1 j gj δ hj hδ) (by simp)

theorem mutexInvOn_stay (gs : List Gor) (gate : Option Nat) (i : Nat) (g g' : Gor) (γ : Nat)
    (hinv : MutexInvOn gs gate) (hi : gs[i]? = some g)
    (hgr : regionGate g.pc = some γ) (hgr' : regionGate g'.pc = some γ) :
    MutexInvOn (gs.set i g') gate := by
  obtain ⟨h1, h2⟩ := hinv
  have hilen : i < gs.length := getElem?_lt_length gs i g hi
  constructor
  · intro j gj δ hj hr
    rw [List.getElem?_set] at hj
    by_cases hij : i = j
    · rw [if_pos hij, if_pos hilen] at hj
      rw [← Option.some.inj hj] at hr
      rw [hgr'] at hr
      rw [← Option.some.inj hr]
      exact h1 i g γ hi hgr
    · rw [if_neg hij] at hj
      exact h1 j gj δ hj hr
  · intro j gj k gk hj hk hrj hrk
    rw [List.getElem?_set] at hj hk
    by_cases hij : i = j
    · by_cases hik : i = k
      · omega
      · rw [if_neg hik] at hk
        have := h2 k gk i g hk hi hrk (by rw [hgr]; rfl)
        omega
    · rw [if_neg hij] at hj
      by_cases hik : i = k
      · have := h2 j gj i g hj hi hrj (by rw [hgr]; rfl)
        omega
      · rw [if_neg hik] at hk
        exact h2 j gj k gk hj hk hrj hrk

theorem mutexInvOn_leave (gs : List Gor) (gate : Option Nat) (i : Nat) (g g' : Gor)
    (hinv : MutexInvOn gs gate) (hi : gs[i]? = some g)
    (hgr : (regionGate g.pc).isSome) (hg' : regionGate g'.pc = none) :
    MutexInvOn (gs.set i g') none := by
  obtain ⟨h1, h2⟩ := hinv
  have hilen : i < gs.length := getElem?_lt_length gs i g hi
  constructor
  · intro j gj γ hj hr
    rw [List.getElem?_set] at hj
    by_cases hij : i = j
    · rw [if_pos hij, if_pos hilen] at hj
      rw [← Option.some.inj hj, hg'] at hr
      exact Option.noConfusion hr
    · rw [if_neg hij] at hj
      have := h2 j gj i g hj hi (by rw [hr]; rfl) hgr
      omega
  · intro j gj k gk hj hk hrj hrk
    rw [List.getElem?_set] at hj hk
    by_cases hij : i = j
    · rw [if_pos hij, if_pos hilen] at hj
      rw [← Option.some.inj hj, hg'] at hrj
      exact absurd hrj (by simp)
    · rw [if_neg hij] at hj
      have := h2 j gj i g hj hi hrj hgr
      omega

theorem sidInvOn_set_same (gs : List Gor) (ns : Nat) (i : Nat) (g g' : Gor)
    (hinv : SidInvOn gs ns) (hi : gs[i]? = some g) (hsid : g'.sid = g.sid) :
    SidInvOn (gs.set i g') ns := by
  obtain ⟨h1, h2⟩ := hinv
  have hilen : i < gs.length := getElem?_lt_length gs i g hi
  constructor
  · intro j gj hj
    rw [List.getElem?_set] at hj
    by_cases hij : i = j
    · rw [if_pos hij, if_pos hilen] at hj
      rw [← Option.some.inj hj, hsid]
      exact h1 i g hi
    · rw [if_neg hij] at hj
      exact h1 j gj hj
  · intro j gj k gk hj hk hjk hne hne'
    rw [List.getElem?_set] at hj hk
    by_cases hij : i = j
    · rw [if_pos hij, if_pos hilen] at hj
      rw [← Option.some.inj hj, hsid] at hne ⊢
      by_cases hik : i = k
      · omega
      · rw [if_neg hik] at hk
        exact h2 i g k gk hi hk (by omega) hne hne'
    · rw [if_neg hij] at hj
      by_cases hik : i = k
      · rw [if_pos hik, if_pos hilen] at hk
        rw [← Option.some.inj hk, hsid] at hne' ⊢
        exact h2 j gj i g hj hi (by omega) hne hne'
      · rw [if_neg hik] at hk
        exact h2 j gj k gk hj hk hjk hne hne'

theorem sidInvOn_assign (gs : List Gor) (ns : Nat) (i : Nat) (g : Gor) (g' : Gor)
    (hinv : SidInvOn gs ns) (hi : gs[i]? = some g) (hsid : g'.sid = ns + 1) :
    SidInvOn (gs.set i g') (ns + 1) := by
  obtain ⟨h1, h2⟩ := hinv
  have hilen : i < gs.length := getElem?_lt_length gs i g hi
  constructor
  · intro j gj hj
    rw [List.getElem?_set] at hj
    by_cases hij : i = j
    · rw [if_pos hij, if_pos hilen] at hj
      rw [← Option.some.inj hj, hsid]
    · rw [if_neg hij] at hj
      exact Nat.le_succ_of_le (h1 j gj hj)
  · intro j gj k gk hj hk hjk hne hne'
    rw [List.getElem?_set] at hj hk
    by_cases hij : i = j
    · rw [if_pos hij, if_pos hilen] at hj
      rw [← Option.some.inj hj, hsid]
      by_cases hik : i = k
      · omega
      · rw [if_neg hik] at hk
        have := h1 k gk hk
        omega
    · rw [if_neg hij] at hj
      by_cases hik : i = k
      · rw [if_pos hik, if_pos hilen] at hk
        rw [← Option.some.inj hk, hsid]
        have := h1 j gj hj
        omega
      · rw [if_neg hik] at hk
        exact h2 j gj k gk hj hk hjk hne hne'

theorem step_preserves_invs (maxc maxs : Nat) (s s' : GState) (i : Nat) (m : Move)
    (h : stepGor maxc maxs s i m = some s')
    (hmu : MutexInv s) (hsi : SidInv s) : MutexInv s' ∧ SidInv s' := by
  obtain ⟨g, hg, hc⟩ := stepGor_cases maxc maxs s i m s' h
  rcases hc with ⟨hpc, rfl⟩ | ⟨γ, hpc, hgt, rfl⟩ | ⟨hpc, hgt, rfl⟩ | ⟨γ, hpc, hcl, rfl⟩ |
    ⟨hpc, rfl⟩ | ⟨snap, j, c, hpc, hcj, hjs, hcc, rfl⟩ | ⟨γ, hpc, hgt, rfl⟩ | ⟨hpc, hgt, rfl⟩ |
    ⟨γ, hpc, (rfl | rfl)⟩ | ⟨γ, hpc, rfl⟩ | ⟨γ, res, hpc, rfl⟩
  · exact ⟨mutexInvOn_set_nonregion s.gors s.gate i g _ hmu hg rfl,
      sidInvOn_set_same s.gors s.nextsessionid i g _ hsi hg rfl⟩
  · exact ⟨mutexInvOn_set_nonregion s.gors s.gate i g _ hmu hg rfl,
      sidInvOn_set_same s.gors s.nextsessionid i g _ hsi hg rfl⟩
  · exact ⟨mutexInvOn_set_nonregion s.gors s.gate i g _ hmu hg rfl,
      sidInvOn_set_same s.gors s.nextsessionid i g _ hsi hg rfl⟩
  · exact ⟨mutexInvOn_set_nonregion s.gors s.gate i g _ hmu hg rfl,
      sidInvOn_set_same s.gors s.nextsessionid i g _ hsi hg rfl⟩
  · constructor
    · exact mutexInvOn_set_nonregion s.gors s.gate i g _ hmu hg
        (regionGate_scanPCNext maxc s.clients (scanClients s.clients).2)
    · have hshape : SidInv (scanSectionRes maxc s i g) =
          SidInvOn (s.gors.set i
            ⟨scanPCNext maxc s.clients (scanClients s.clients).2,
             if g.sid = 0 then s.nextsessionid + 1 else g.sid⟩)
            (if g.sid = 0 then s.nextsessionid + 1 else s.nextsessionid) := rfl
      rw [hshape]
      by_cases h0 : g.sid = 0
      · rw [if_pos h0, if_pos h0]
        exact sidInvOn_assign s.gors s.nextsessionid i g _ hsi hg rfl
      · rw [if_neg h0, if_neg h0]
        exact sidInvOn_set_same s.gors s.nextsessionid i g _ hsi hg rfl
  · exact ⟨mutexInvOn_set_nonregion s.gors s.gate i g _ hmu hg rfl,
      sidInvOn_set_same s.gors s.nextsessionid i g _ hsi hg rfl⟩
  · exact ⟨mutexInvOn_set_nonregion s.gors s.gate i g _ hmu hg rfl,
      sidInvOn_set_same s.gors s.nextsessionid i g _ hsi hg rfl⟩
  · refine ⟨?_, sidInvOn_set_same s.gors s.nextsessionid i g _ hsi hg rfl⟩
    have hmu' : MutexInvOn s.gors none := hgt ▸ hmu
    exact mutexInvOn_install s.gors i g s.nextgate (PC.dialing s.nextgate) hmu' hg rfl
  · refine ⟨?_, sidInvOn_set_same s.gors s.nextsessionid i g _ hsi hg rfl⟩
    exact mutexInvOn_stay s.gors s.gate i g _ γ hmu hg (by rw [hpc]; rfl) rfl
  · refine ⟨?_, sidInvOn_set_same s.gors s.nextsessionid i g _ hsi hg rfl⟩
    exact mutexInvOn_stay s.gors s.gate i g _ γ hmu hg (by rw [hpc]; rfl) rfl
  · refine ⟨?_, sidInvOn_set_same s.gors s.nextsessionid i g _ hsi hg rfl⟩
    exact mutexInvOn_stay s.gors s.gate i g _ γ hmu hg (by rw [hpc]; rfl) rfl
  · refine ⟨?_, sidInvOn_set_same s.gors s.nextsessionid i g _ hsi hg rfl⟩
    exact mutexInvOn_leave s.gors s.gate i g _ hmu hg (by rw [hpc]; rfl) rfl

theorem initGState_invs (n : Nat) : MutexInv (initGState n) ∧ SidInv (initGState n) := by
  constructor
  · constructor
    · intro i g γ hi hr
      simp only [initGState, List.getElem?_replicate] at hi
      split at hi
      · rw [← Option.some.inj hi] at hr
        exact Option.noConfusion hr
      · exact Option.noConfusion hi
    · intro i g j g' hi hj hri hrj
      simp only [initGState, List.getElem?_replicate] at hi
      split at hi
      · rw [← Option.some.inj hi] at hri
        exact absurd hri (by simp [regionGate])
      · exact Option.noConfusion hi
  · constructor
    · intro i g hi
      simp only [initGState, List.getElem?_replicate] at hi
      split at hi
      · rw [← Option.some.inj hi]
        exact Nat.le_refl 0
      · exact Option.noConfusion hi
    · intro i g j g' hi hj hij hne hne'
      simp only [initGState, List.getElem?_replicate] at hi
      split at hi
      · rw [← Option.some.inj hi] at hne
        exact absurd rfl hne
      · exact Option.noConfusion hi

theorem reach_invs (maxc maxs n : Nat) (s : GState)
    (h : Reach maxc maxs (initGState n) s) : MutexInv s ∧ SidInv s := by
  induction h with
  | refl => exact initGState_invs n
  | tail hsteps hstep ih =>
    obtain ⟨i, m, hsm⟩ := hstep
    exact step_preserves_invs maxc maxs _ _ i m hsm ih.1 ih.2

theorem stepGor_gors_shape (maxc maxs : Nat) (s : GState) (i : Nat) (m : Move) (s' : GState)
    (h : stepGor maxc maxs s i m = some s') :
    ∃ g gnew, s.gors[i]? = some g ∧ s'.gors = s.gors.set i gnew ∧
      (gnew.sid = g.sid ∨ (g.sid = 0 ∧ gnew.sid = s.nextsessionid + 1)) := by
  obtain ⟨g, hg, hc⟩ := stepGor_cases maxc maxs s i m s' h
  rcases hc with ⟨hpc, rfl⟩ | ⟨γ, hpc, hgt, rfl⟩ | ⟨hpc, hgt, rfl⟩ | ⟨γ, hpc, hcl, rfl⟩ |
    ⟨hpc, rfl⟩ | ⟨snap, j, c, hpc, hcj, hjs, hcc, rfl⟩ | ⟨γ, hpc, hgt, rfl⟩ | ⟨hpc, hgt, rfl⟩ |
    ⟨γ, hpc, (rfl | rfl)⟩ | ⟨γ, hpc, rfl⟩ | ⟨γ, res, hpc, rfl⟩
  · exact ⟨g, _, hg, rfl, Or.inl rfl⟩
  · exact ⟨g, _, hg, rfl, Or.inl rfl⟩
  · exact ⟨g, _, hg, rfl, Or.inl rfl⟩
  · exact ⟨g, _, hg, rfl, Or.inl rfl⟩
  · refine ⟨g, _, hg, rfl, ?_⟩
    by_cases h0 : g.sid = 0
    · exact Or.inr ⟨h0, by simp [h0]⟩
    · exact Or.inl (by simp [h0])
  · exact ⟨g, _, hg, rfl, Or.inl rfl⟩
  · exact ⟨g, _, hg, rfl, Or.inl rfl⟩
  · exact ⟨g, _, hg, rfl, Or.inl rfl⟩
  · exact ⟨g, _, hg, rfl, Or.inl rfl⟩
  · exact ⟨g, _, hg, rfl, Or.inl rfl⟩
  · exact ⟨g, _, hg, rfl, Or.inl rfl⟩
  · exact ⟨g, _, hg, rfl, Or.inl rfl⟩

theorem runTrace_reach (maxc maxs : Nat) (tr : List (Nat × Move)) (s s' : GState)
    (h : runTrace maxc maxs tr s = some s') : Reach maxc maxs s s' := by
  induction tr generalizing s with
  | nil =>
    obtain rfl := Option.some.inj h
    exact Relation.ReflTransGen.refl
  | cons im rest ih =>
    obtain ⟨i, m⟩ := im
    unfold runTrace at h
    cases hst : stepGor maxc maxs s i m with
    | none => rw [hst] at h; exact Option.noConfusion h
    | some s1 =>
      simp only [hst] at h
      exact Relation.ReflTransGen.head ⟨i, m, hst⟩ (ih s1 h)

/-- Claim C3: the per-host connection bound fails under interleaving.
With effective MaxConnections 1 and a cold pool, two concurrent
`get_client` calls both scan the empty registry (neither sees a transport,
neither is at the cap), then serialize perfectly on the dial gate: the
first installs the gate, dials, appends transport 1 and removes the gate;
the second then installs the gate itself (the admission check is NOT
re-run after winning the gate) and dials transport 2.  The run ends in a
steady state (both calls returned, no step is enabled) with TWO transports
for the host: |clients[h]| = 2 > MaxConnections = 1, and the second dialer
won the gate when the count was already at the cap. -/
theorem C3_connection_bound_exceeded :
    ∃ s, runTrace 1 1 [(0, .tick), (1, .tick), (0, .tick), (1, .tick), (0, .tick), (1, .tick),
        (0, .tick), (0, .dialRes true), (0, .tick), (0, .tick),
        (1, .tick), (1, .dialRes true), (1, .tick), (1, .tick)] (initGState 2)
      = some s ∧
    s.clients.length = 2 ∧ 1 < s.clients.length ∧ s.gate = none ∧
    (∀ (i : Nat) (m : Move), stepGor 1 1 s i m = none) := by
  refine ⟨⟨[⟨1, 1, 1⟩, ⟨2, 1, 1⟩], 2, 2, none, 2, [1, 0],
    [⟨.done (some 0), 1⟩, ⟨.done (some 1), 2⟩]⟩, by decide, rfl, by decide, rfl, ?_⟩
  intro i m
  match i with
  | 0 => cases m <;> rfl
  | 1 => cases m <;> rfl
  | n + 2 => cases m <;> rfl

/-- Claim C4: at most one goroutine dials per host at any instant.  In
every reachable state of the interleaving model: (1) any two goroutines
whose control point is the `ssh.Dial` call are the same goroutine (the
gate installation is checked-and-set under `dialing_mu`); (2) a goroutine
at the deferred cleanup removes the gate entry and closes its signal in
one step, whether the dial succeeded (`res = some idx`) or failed
(`res = none`); (3) a goroutine that observed `dialing[host]` waits: it
has no enabled step until the signal it read has been closed. -/
theorem C4_single_dial_per_host (maxc maxs n : Nat) (s : GState)
    (h : Reach maxc maxs (initGState n) s) :
    (∀ (i : Nat) (g : Gor) (j : Nat) (g' : Gor) (γ δ : Nat),
      s.gors[i]? = some g → s.gors[j]? = some g' →
      g.pc = .dialing γ → g'.pc = .dialing δ → i = j) ∧
    (∀ (i : Nat) (g : Gor) (γ : Nat) (res : Option Nat) (m : Move) (s' : GState),
      s.gors[i]? = some g → g.pc = .removeGate γ res →
      stepGor maxc maxs s i m = some s' → s'.gate = none ∧ γ ∈ s'.closedGates) ∧
    (∀ (i : Nat) (g : Gor) (γ : Nat) (m : Move) (s' : GState),
      s.gors[i]? = some g → g.pc = .waitGate γ → γ ∉ s.closedGates →
      stepGor maxc maxs s i m ≠ some s') := by
  obtain ⟨⟨h1, h2⟩, _⟩ := reach_invs maxc maxs n s h
  refine ⟨?_, ?_, ?_⟩
  · intro i g j g' γ δ hi hj hpi hpj
    exact h2 i g j g' hi hj (by rw [hpi]; rfl) (by rw [hpj]; rfl)
  · intro i g γ res m s' hi hpc hstep
    obtain ⟨g₀, hg₀, hc⟩ := stepGor_cases maxc maxs s i m s' hstep
    obtain rfl : g₀ = g := Option.some.inj (hg₀.symm.trans hi)
    rcases hc with ⟨hpc', rfl⟩ | ⟨γ', hpc', _, rfl⟩ | ⟨hpc', _, rfl⟩ | ⟨γ', hpc', _, rfl⟩ |
      ⟨hpc', rfl⟩ | ⟨snap, j, c, hpc', _, _, _, rfl⟩ | ⟨γ', hpc', _, rfl⟩ | ⟨hpc', _, rfl⟩ |
      ⟨γ', hpc', (rfl | rfl)⟩ | ⟨γ', hpc', rfl⟩ | ⟨γ', res', hpc', rfl⟩
    · exact absurd (hpc.symm.trans hpc') (by simp)
    · exact absurd (hpc.symm.trans hpc') (by simp)
    · exact absurd (hpc.symm.trans hpc') (by simp)
    · exact absurd (hpc.symm.trans hpc') (by simp)
    · exact absurd (hpc.symm.trans hpc') (by simp)
    · exact absurd (hpc.symm.trans hpc') (by simp)
    · exact absurd (hpc.symm.trans hpc') (by simp)
    · exact absurd (hpc.symm.trans hpc') (by simp)
    · exact absurd (hpc.symm.trans hpc') (by simp)
    · exact absurd (hpc.symm.trans hpc') (by simp)
    · exact absurd (hpc.symm.trans hpc') (by simp)
    · have hinj := hpc.symm.trans hpc'
      have hγ : γ = γ' := by injection hinj
      subst hγ
      exact ⟨rfl, List.mem_cons_self γ _⟩
  · intro i g γ m s' hi hpc hγ hstep
    obtain ⟨g₀, hg₀, hc⟩ := stepGor_cases maxc maxs s i m s' hstep
    obtain rfl : g₀ = g := Option.some.inj (hg₀.symm.trans hi)
    rcases hc with ⟨hpc', rfl⟩ | ⟨γ', hpc', _, rfl⟩ | ⟨hpc', _, rfl⟩ | ⟨γ', hpc', hcl, rfl⟩ |
      ⟨hpc', rfl⟩ | ⟨snap, j, c, hpc', _, _, _, rfl⟩ | ⟨γ', hpc', _, rfl⟩ | ⟨hpc', _, rfl⟩ |
      ⟨γ', hpc', (rfl | rfl)⟩ | ⟨γ', hpc', rfl⟩ | ⟨γ', res', hpc', rfl⟩
    · exact absurd (hpc.symm.trans hpc') (by simp)
    · exact absurd (hpc.symm.trans hpc') (by simp)
    · exact absurd (hpc.symm.trans hpc') (by simp)
    · have hinj := hpc.symm.trans hpc'
      have hγ' : γ = γ' := by injection hinj
      subst hγ'
      exact hγ hcl
    · exact absurd (hpc.symm.trans hpc') (by simp)
    · exact absurd (hpc.symm.trans hpc') (by simp)
    · exact absurd (hpc.symm.trans hpc') (by simp)
    · exact absurd (hpc.symm.trans hpc') (by simp)
    · exact absurd (hpc.symm.trans hpc') (by simp)
    · exact absurd (hpc.symm.trans hpc') (by simp)
    · exact absurd (hpc.symm.trans hpc') (by simp)
    · exact absurd (hpc.symm.trans hpc') (by simp)

/-- Witness for C4 at a reachable state in which goroutine 0 is actually
inside the dial (it has installed gate 0 and sits at `ssh.Dial`). -/
theorem C4_single_dial_per_host_witness :
    (∀ (i : Nat) (g : Gor) (j : Nat) (g' : Gor) (γ δ : Nat),
      (⟨[], 0, 1, some 0, 1, [], [⟨.dialing 0, 1⟩]⟩ : GState).gors[i]? = some g →
      (⟨[], 0, 1, some 0, 1, [], [⟨.dialing 0, 1⟩]⟩ : GState).gors[j]? = some g' →
      g.pc = .dialing γ → g'.pc = .dialing δ → i = j) ∧
    (∀ (i : Nat) (g : Gor) (γ : Nat) (res : Option Nat) (m : Move) (s' : GState),
      (⟨[], 0, 1, some 0, 1, [], [⟨.dialing 0, 1⟩]⟩ : GState).gors[i]? = some g →
      g.pc = .removeGate γ res →
      stepGor 1 1 ⟨[], 0, 1, some 0, 1, [], [⟨.dialing 0, 1⟩]⟩ i m = some s' →
      s'.gate = none ∧ γ ∈ s'.closedGates) ∧
    (∀ (i : Nat) (g : Gor) (γ : Nat) (m : Move) (s' : GState),
      (⟨[], 0, 1, some 0, 1, [], [⟨.dialing 0, 1⟩]⟩ : GState).gors[i]? = some g →
      g.pc = .waitGate γ → γ ∉ (⟨[], 0, 1, some 0, 1, [], [⟨.dialing 0, 1⟩]⟩ : GState).closedGates →
      stepGor 1 1 ⟨[], 0, 1, some 0, 1, [], [⟨.dialing 0, 1⟩]⟩ i m ≠ some s') :=
  C4_single_dial_per_host 1 1 1 ⟨[], 0, 1, some 0, 1, [], [⟨.dialing 0, 1⟩]⟩
    (runTrace_reach 1 1 [(0, .tick), (0, .tick), (0, .tick), (0, .tick)] (initGState 1)
      ⟨[], 0, 1, some 0, 1, [], [⟨.dialing 0, 1⟩]⟩ rfl)

/-- Claim C5 counterexample: session ids are NOT strictly increasing in
order of public-call entry.  Goroutine 0 enters its public call first (its
entry step is the first event of the schedule; goroutine 1 enters second),
but goroutine 1 reaches the clients lock first and is assigned session id
1; goroutine 0 is assigned session id 2.  Both acquisitions succeed
(both goroutines end at `done`), so the earlier-entering call returned the
LARGER id: 2 after 1 violates strict increase in entry order. -/
theorem C5_entry_order_counterexample :
    runTrace 2 1 [(0, .tick), (1, .tick), (1, .tick), (1, .tick), (0, .tick), (0, .tick),
        (1, .tick), (1, .dialRes true), (1, .tick), (1, .tick),
        (0, .tick), (0, .dialRes true), (0, .tick), (0, .tick)] (initGState 2)
      = some ⟨[⟨1, 1, 1⟩, ⟨2, 1, 1⟩], 2, 2, none, 2, [1, 0],
          [⟨.done (some 1), 2⟩, ⟨.done (some 0), 1⟩]⟩ ∧
    ¬ (2 : Nat) < 1 := ⟨by decide, by decide⟩

/-- Claim C5 as amended: in every reachable state of the interleaving
model, (1) the nonzero session ids held by distinct goroutines are
pairwise distinct; (2) one step never changes a session id that is already
assigned (nonzero) -- in particular one public call is assigned exactly one
id no matter how many dial-gate race losses and retries it goes through;
(3) the step that assigns an id (0 becomes nonzero, the first passage
through the clients lock) assigns one strictly larger than every id
assigned before it: ids are strictly increasing in order of assignment. -/
theorem C5_session_ids_once_distinct_monotone (maxc maxs n : Nat) (s : GState)
    (h : Reach maxc maxs (initGState n) s) :
    (∀ (i : Nat) (g : Gor) (j : Nat) (g' : Gor), s.gors[i]? = some g → s.gors[j]? = some g' →
      i ≠ j → g.sid ≠ 0 → g'.sid ≠ 0 → g.sid ≠ g'.sid) ∧
    (∀ (i i' : Nat) (m : Move) (s' : GState) (g g' : Gor),
      stepGor maxc maxs s i m = some s' →
      s.gors[i']? = some g → s'.gors[i']? = some g' → g.sid ≠ 0 → g'.sid = g.sid) ∧
    (∀ (i : Nat) (m : Move) (s' : GState) (g g' : Gor),
      stepGor maxc maxs s i m = some s' →
      s.gors[i]? = some g → s'.gors[i]? = some g' → g.sid = 0 → g'.sid ≠ 0 →
      ∀ (j : Nat) (gj : Gor), j ≠ i → s.gors[j]? = some gj → gj.sid ≠ 0 →
        gj.sid < g'.sid) := by
  obtain ⟨_, ⟨hs1, hs2⟩⟩ := reach_invs maxc maxs n s h
  refine ⟨hs2, ?_, ?_⟩
  · intro i i' m s' g g' hstep hg hg' hne
    obtain ⟨g₀, gnew, hg₀, hgors, hsid⟩ := stepGor_gors_shape maxc maxs s i m s' hstep
    have hilen : i < s.gors.length := getElem?_lt_length s.gors i g₀ hg₀
    rw [hgors, List.getElem?_set] at hg'
    by_cases hii : i = i'
    · rw [if_pos hii, if_pos hilen] at hg'
      obtain rfl := Option.some.inj hg'
      obtain rfl : g₀ = g := Option.some.inj (hg₀.symm.trans (hii ▸ hg))
      rcases hsid with hl | ⟨h0, _⟩
      · exact hl
      · exact absurd h0 hne
    · rw [if_neg hii] at hg'
      exact congrArg Gor.sid (Option.some.inj (hg.symm.trans hg')).symm
  · intro i m s' g g' hstep hg hg' h0 hne j gj hji hgj hnej
    obtain ⟨g₀, gnew, hg₀, hgors, hsid⟩ := stepGor_gors_shape maxc maxs s i m s' hstep
    have hilen : i < s.gors.length := getElem?_lt_length s.gors i g₀ hg₀
    obtain rfl : g₀ = g := Option.some.inj (hg₀.symm.trans hg)
    rw [hgors, List.getElem?_set] at hg'
    rw [if_pos rfl, if_pos hilen] at hg'
    obtain rfl := Option.some.inj hg'
    rcases hsid with hl | ⟨_, hr⟩
    · rw [hl, h0] at hne
      exact absurd rfl hne
    · rw [hr]
      have := hs1 j gj hgj
      omega

/-- Witness for the amended C5 at reachable states where the hypotheses
are live.  After ten steps of a two-goroutine schedule, goroutine 0 holds
session id 2 and goroutine 1 holds session id 1 (both nonzero): part (1)
of the theorem gives 2 ≠ 1.  Goroutine 0's next step (winning the dial
gate) carries its already-assigned id unchanged: part (2) gives that the
id after the step equals the id before.  And after five steps, goroutine
0 sits at the clients lock with id still 0 while goroutine 1 already
holds id 1; the assigning step gives goroutine 0 the id 2, and part (3)
gives 1 < 2: the later assignment got the strictly larger id. -/
theorem C5_session_ids_once_distinct_monotone_witness :
    runTrace 2 1 [(0, .tick), (1, .tick), (1, .tick), (1, .tick), (0, .tick)] (initGState 2)
      = some ⟨[], 0, 1, none, 0, [], [⟨.scan, 0⟩, ⟨.installGate, 1⟩]⟩ ∧
    runTrace 2 1 [(0, .tick), (1, .tick), (1, .tick), (1, .tick), (0, .tick), (0, .tick),
        (1, .tick), (1, .dialRes true), (1, .tick), (1, .tick)] (initGState 2)
      = some ⟨[⟨1, 1, 1⟩], 1, 2, none, 1, [0],
          [⟨.installGate, 2⟩, ⟨.done (some 0), 1⟩]⟩ ∧
    (⟨.installGate, 2⟩ : Gor).sid ≠ (⟨.done (some 0), 1⟩ : Gor).sid ∧
    (⟨.dialing 1, 2⟩ : Gor).sid = (⟨.installGate, 2⟩ : Gor).sid ∧
    (⟨.installGate, 1⟩ : Gor).sid < (⟨.installGate, 2⟩ : Gor).sid := by
  refine ⟨rfl, rfl, ?_, ?_, ?_⟩
  · exact (C5_session_ids_once_distinct_monotone 2 1 2
      ⟨[⟨1, 1, 1⟩], 1, 2, none, 1, [0], [⟨.installGate, 2⟩, ⟨.done (some 0), 1⟩]⟩
      (runTrace_reach 2 1 [(0, .tick), (1, .tick), (1, .tick), (1, .tick), (0, .tick),
        (0, .tick), (1, .tick), (1, .dialRes true), (1, .tick), (1, .tick)]
        (initGState 2) _ rfl)).1
      0 ⟨.installGate, 2⟩ 1 ⟨.done (some 0), 1⟩ rfl rfl (by decide) (by decide) (by decide)
  · exact (C5_session_ids_once_distinct_monotone 2 1 2
      ⟨[⟨1, 1, 1⟩], 1, 2, none, 1, [0], [⟨.installGate, 2⟩, ⟨.done (some 0), 1⟩]⟩
      (runTrace_reach 2 1 [(0, .tick), (1, .tick), (1, .tick), (1, .tick), (0, .tick),
        (0, .tick), (1, .tick), (1, .dialRes true), (1, .tick), (1, .tick)]
        (initGState 2) _ rfl)).2.1
      0 0 .tick ⟨[⟨1, 1, 1⟩], 1, 2, some 1, 2, [0], [⟨.dialing 1, 2⟩, ⟨.done (some 0), 1⟩]⟩
      ⟨.installGate, 2⟩ ⟨.dialing 1, 2⟩ rfl rfl rfl (by decide)
  · exact (C5_session_ids_once_distinct_monotone 2 1 2
      ⟨[], 0, 1, none, 0, [], [⟨.scan, 0⟩, ⟨.installGate, 1⟩]⟩
      (runTrace_reach 2 1 [(0, .tick), (1, .tick), (1, .tick), (1, .tick), (0, .tick)]
        (initGState 2) _ rfl)).2.2
      0 .tick ⟨[], 0, 2, none, 0, [], [⟨.installGate, 2⟩, ⟨.installGate, 1⟩]⟩
      ⟨.scan, 0⟩ ⟨.installGate, 2⟩ rfl rfl rfl rfl (by decide)
      1 ⟨.installGate, 1⟩ (by decide) rfl (by decide)
